import Mathlib

/-!
Verification of the pricing engine of the Malta Student Accommodation API
(`src/main.py`), against its natural-language specification.

The embedding models Python values as follows: `datetime.date` becomes a
`Date` structure of year/month/day naturals together with the calendar
validity predicate that the `date` constructor enforces (`ValueError` on an
invalid month or day, modelled as `Except Unit`); Python float rates and
multipliers are idealised as exact rationals `ℚ`; `round(x, 2)` is modelled
as exact half-to-even rounding at two decimals, which is Python's documented
rounding mode; dictionaries with optional keys become structures with
`Option` fields read through `Option.getD`, mirroring `dict.get` defaults.
Python's `MAXYEAR = 9999` representation cap is not modelled (years are
unbounded above); all claims live far below it.
-/

namespace MaltaPricing

/-- Gregorian leap-year test, as used by `datetime.date` for February. -/
def isLeap (y : ℕ) : Bool :=
  (y % 4 == 0 && y % 100 != 0) || (y % 400 == 0)

/-- Number of days in month `m` of year `y` (the table `datetime.date`
validates day-of-month against). -/
def daysInMonth (y m : ℕ) : ℕ :=
  if m = 2 then (if isLeap y then 29 else 28)
  else if m = 4 ∨ m = 6 ∨ m = 9 ∨ m = 11 then 30
  else 31

/-- A calendar date as carried by Python's `datetime.date`: year, month, day. -/
structure Date where
  year : ℕ
  month : ℕ
  day : ℕ
deriving DecidableEq, Repr

/-- The validity check performed by the `datetime.date` constructor:
`MINYEAR <= year`, month in `[1, 12]`, day in `[1, days-in-month]`.
(The `MAXYEAR = 9999` cap is not modelled.) -/
def Date.Valid (d : Date) : Prop :=
  1 ≤ d.year ∧ 1 ≤ d.month ∧ d.month ≤ 12 ∧ 1 ≤ d.day ∧ d.day ≤ daysInMonth d.year d.month

instance (d : Date) : Decidable d.Valid := by
  unfold Date.Valid
  infer_instance

/-- Python's `date(ymd)` constructor: returns the date, or raises
`ValueError` (modelled as `Except.error ()`) on an invalid calendar date. -/
def mkDate (y m d : ℕ) : Except Unit Date :=
  if Date.Valid ⟨y, m, d⟩ then .ok ⟨y, m, d⟩ else .error ()

/-- Python date comparison `d1 < d2`: lexicographic on (year, month, day). -/
def Date.lexLt (a b : Date) : Prop :=
  a.year < b.year ∨ (a.year = b.year ∧
    (a.month < b.month ∨ (a.month = b.month ∧ a.day < b.day)))

/-- Python date comparison `d1 <= d2`. -/
def Date.lexLe (a b : Date) : Prop :=
  a.lexLt b ∨ a = b

instance (a b : Date) : Decidable (a.lexLt b) := by
  unfold Date.lexLt
  infer_instance

instance (a b : Date) : Decidable (a.lexLe b) := by
  unfold Date.lexLe
  infer_instance

/-- `d + timedelta(days=1)` on a calendar date: increment the day, rolling
over month and year boundaries. -/
def nextDate (d : Date) : Date :=
  if d.day < daysInMonth d.year d.month then ⟨d.year, d.month, d.day + 1⟩
  else if d.month < 12 then ⟨d.year, d.month + 1, 1⟩
  else ⟨d.year + 1, 1, 1⟩

/-- Days in year `y` strictly before month `m` (cumulative month table). -/
def daysBeforeMonth (y : ℕ) : ℕ → ℕ
  | 0 => 0
  | 1 => 0
  | m + 1 => daysBeforeMonth y m + daysInMonth y m

/-- Days strictly before year `y` in the proleptic Gregorian calendar
(`datetime`'s `_days_before_year`). -/
def daysBeforeYear (y : ℕ) : ℕ :=
  365 * (y - 1) + (y - 1) / 4 - (y - 1) / 100 + (y - 1) / 400

/-- Rata-die ordinal of a date (`date.toordinal`): the number of the day,
counting 0001-01-01 as day 1. -/
def Date.toOrdinal (d : Date) : ℕ :=
  daysBeforeYear d.year + daysBeforeMonth d.year d.month + d.day

/-- Bounded iteration core of `daterange`: the fuel argument is only an upper
bound on the number of loop iterations; `daterange` supplies exactly the
ordinal distance, so on valid dates the loop is never cut short
(see `daterange_eq`). -/
def daterangeAux (fin : Date) : ℕ → Date → List Date
  | 0, _ => []
  | fuel + 1, cur => if cur.lexLt fin then cur :: daterangeAux fin fuel (nextDate cur) else []

/-- `daterange(start, end)` from `src/main.py` lines 28-32: all days `cur`
with `start <= cur < end`, stepping one day at a time. -/
def daterange (start fin : Date) : List Date :=
  daterangeAux fin (fin.toOrdinal - start.toOrdinal) start

/-- A Season record as stored in the `season` collection (see
`schemas.Season` and the seed data): name, recurring month/day boundaries,
and nightly base rate. `rate` is `Option` because `compute_price` reads it
with `s.get("rate", 0.0)`, so a record may lack it; the month/day fields are
required by the schema and are read unconditionally. -/
structure Season where
  name : String
  start_month : ℕ
  start_day : ℕ
  end_month : ℕ
  end_day : ℕ
  rate : Option ℚ
deriving DecidableEq, Repr

/-- A Room record: `str(_id)`, plus the fields `compute_price` and the
endpoints read through `dict.get` with defaults (`capacity` default 1,
`multiplier` default 1.0). -/
structure Room where
  id : String
  capacity : Option ℤ
  multiplier : Option ℚ
deriving DecidableEq, Repr

/-- The per-season test inside the loop of `season_for_day`
(`src/main.py` lines 43-52): build this year's start/end boundaries (either
construction may raise `ValueError`), then test membership, wrapping the
year end exactly when `end_this_year < start_this_year`. -/
def seasonMatch (d : Date) (s : Season) : Except Unit Bool :=
  match mkDate d.year s.start_month s.start_day, mkDate d.year s.end_month s.end_day with
  | .ok start_this_year, .ok end_this_year =>
    if end_this_year.lexLt start_this_year then
      if start_this_year.lexLe d ∨ d.lexLe end_this_year then .ok true else .ok false
    else
      if start_this_year.lexLe d ∧ d.lexLe end_this_year then .ok true else .ok false
  | _, _ => .error ()

/-- `season_for_day(d, seasons)` (`src/main.py` lines 41-53): the first
season in list order whose recurring range contains `d`, or `none`. -/
def season_for_day (d : Date) : List Season → Except Unit (Option Season)
  | [] => .ok none
  | s :: rest =>
    match seasonMatch d s with
    | .error e => .error e
    | .ok true => .ok (some s)
    | .ok false => season_for_day d rest

/-- Line 61 of `src/main.py`: `base = s.get("rate", 0.0) if s else 0.0`. -/
def rate_or_zero (s : Option Season) : ℚ :=
  match s with
  | some s => s.rate.getD 0
  | none => 0

/-- The base rate used for one day (lines 60-61): look the season up, then
default a missing season or a missing `rate` field to 0. -/
def day_base (d : Date) (seasons : List Season) : Except Unit ℚ :=
  match season_for_day d seasons with
  | .error e => .error e
  | .ok s => .ok (rate_or_zero s)

/-- The accumulation loop of `compute_price` (lines 58-62): starting from
`total`, add `base * room.get("multiplier", 1.0)` for each day in turn. -/
def priceLoop (room : Room) (seasons : List Season) : List Date → ℚ → Except Unit ℚ
  | [], total => .ok total
  | d :: rest, total =>
    match day_base d seasons with
    | .error e => .error e
    | .ok base => priceLoop room seasons rest (total + base * room.multiplier.getD 1)

/-- Round-half-to-even to an integer, on exact rationals: Python's `round`
applied to the idealised (error-free) value. -/
def rhe (q : ℚ) : ℤ :=
  if q - (⌊q⌋ : ℚ) < 1/2 then ⌊q⌋
  else if (1 : ℚ)/2 < q - (⌊q⌋ : ℚ) then ⌊q⌋ + 1
  else if ⌊q⌋ % 2 = 0 then ⌊q⌋ else ⌊q⌋ + 1

/-- `round(total, 2)` (line 63): round half-to-even at two decimals. -/
def round2 (q : ℚ) : ℚ :=
  (rhe (q * 100) : ℚ) / 100

/-- The raw (pre-rounding) stay total of `compute_price`. -/
def compute_price_raw (room : Room) (seasons : List Season) (check_in check_out : Date) :
    Except Unit ℚ :=
  priceLoop room seasons (daterange check_in check_out) 0

/-- `compute_price(room, check_in, check_out)` (`src/main.py` lines 56-63).
The season list is passed explicitly; in the source it is fetched from the
catalog store by `get_active_seasons()` at the top of the function. -/
def compute_price (room : Room) (seasons : List Season) (check_in check_out : Date) :
    Except Unit ℚ :=
  match compute_price_raw room seasons check_in check_out with
  | .error e => .error e
  | .ok t => .ok (round2 t)

/-- The separator of `%Y-%m-%d`. -/
def dashSep : String := "-"

/-- `parse_date(s)` (`src/main.py` lines 24-25):
`datetime.strptime(s, "%Y-%m-%d").date()`, which splits on the dashes,
requires numeric components, and validates the calendar date, raising
`ValueError` otherwise. -/
def parse_date (s : String) : Except Unit Date :=
  match s.splitOn dashSep with
  | [ys, ms, ds] =>
    match ys.toNat?, ms.toNat?, ds.toNat? with
    | some y, some m, some d => mkDate y m d
    | _, _, _ => .error ()
  | _ => .error ()

/-- `QuoteRequest` (lines 90-94). -/
structure QuoteRequest where
  room_id : String
  check_in : String
  check_out : String
  guests : ℤ
deriving DecidableEq, Repr

/-- `BookingRequest` (lines 96-100): a `QuoteRequest` plus student fields. -/
structure BookingRequest where
  room_id : String
  check_in : String
  check_out : String
  guests : ℤ
  name : String
  email : String
  university : Option String
  phone : Option String
deriving DecidableEq, Repr

/-- The quote fields of a booking request (the inherited `QuoteRequest`
part). -/
def BookingRequest.toQuoteRequest (p : BookingRequest) : QuoteRequest :=
  ⟨p.room_id, p.check_in, p.check_out, p.guests⟩

/-- How a request can fail before (or while) pricing: the two explicit
`HTTPException`s of each endpoint, and an uncaught `ValueError` (from
`parse_date` or from season-boundary construction inside `compute_price`). -/
inductive ApiError where
  | roomNotFound
  | checkOutNotAfterCheckIn
  | invalidGuests
  | valueError
deriving DecidableEq, Repr

/-- The response body of `POST /quote` (line 130), minus the fixed
`currency` echo. -/
structure QuoteResponse where
  room_id : String
  check_in : String
  check_out : String
  guests : ℤ
  total_price : ℚ
deriving DecidableEq, Repr

/-- The response body of `POST /book` (line 164); `booking_id` is the
store-assigned id and is not modelled. -/
structure BookingResponse where
  total_price : ℚ
  currency : String
  status : String
deriving DecidableEq, Repr

/-- `get_quote` (`src/main.py` lines 117-130): find the room by id, parse
and order-check the dates, range-check the guest count, then price. -/
def get_quote (rooms : List Room) (seasons : List Season) (payload : QuoteRequest) :
    Except ApiError QuoteResponse :=
  match rooms.find? (fun r => r.id == payload.room_id) with
  | none => .error .roomNotFound
  | some room =>
    match parse_date payload.check_in with
    | .error _ => .error .valueError
    | .ok ci =>
      match parse_date payload.check_out with
      | .error _ => .error .valueError
      | .ok co =>
        if co.lexLe ci then .error .checkOutNotAfterCheckIn
        else if payload.guests < 1 ∨ (room.capacity.getD 1) < payload.guests then
          .error .invalidGuests
        else
          match compute_price room seasons ci co with
          | .error _ => .error .valueError
          | .ok price =>
            .ok ⟨payload.room_id, payload.check_in, payload.check_out, payload.guests, price⟩

/-- `create_booking` (`src/main.py` lines 132-164): the same lookup,
validation and pricing code as `get_quote`, then the booking document is
inserted and its total echoed back (the insertion itself is external state
and is not modelled). -/
def create_booking (rooms : List Room) (seasons : List Season) (payload : BookingRequest) :
    Except ApiError BookingResponse :=
  match rooms.find? (fun r => r.id == payload.room_id) with
  | none => .error .roomNotFound
  | some room =>
    match parse_date payload.check_in with
    | .error _ => .error .valueError
    | .ok ci =>
      match parse_date payload.check_out with
      | .error _ => .error .valueError
      | .ok co =>
        if co.lexLe ci then .error .checkOutNotAfterCheckIn
        else if payload.guests < 1 ∨ (room.capacity.getD 1) < payload.guests then
          .error .invalidGuests
        else
          match compute_price room seasons ci co with
          | .error _ => .error .valueError
          | .ok total => .ok ⟨total, "EUR", "confirmed"⟩

/-! ### Calendar arithmetic lemmas -/

lemma isLeap_iff (y : ℕ) : isLeap y = true ↔ ((y % 4 = 0 ∧ ¬ y % 100 = 0) ∨ y % 400 = 0) := by
  simp [isLeap]

lemma daysInMonth_pos (y m : ℕ) : 1 ≤ daysInMonth y m := by
  unfold daysInMonth
  split_ifs <;> omega

lemma daysInMonth_le (y m : ℕ) : daysInMonth y m ≤ 31 := by
  unfold daysInMonth
  split_ifs <;> omega

lemma daysBeforeMonth_succ (y m : ℕ) (h : 1 ≤ m) :
    daysBeforeMonth y (m + 1) = daysBeforeMonth y m + daysInMonth y m := by
  cases m with
  | zero => omega
  | succ k => rfl

lemma daysBeforeMonth_le_succ (y k : ℕ) : daysBeforeMonth y k ≤ daysBeforeMonth y (k + 1) := by
  cases k with
  | zero => simp [daysBeforeMonth]
  | succ j =>
    rw [daysBeforeMonth_succ y (j + 1) (by omega)]
    exact Nat.le_add_right _ _

lemma daysBeforeMonth_mono (y : ℕ) {m m' : ℕ} (h : m ≤ m') :
    daysBeforeMonth y m ≤ daysBeforeMonth y m' := by
  induction m' with
  | zero =>
    have : m = 0 := by omega
    subst this
    exact le_refl _
  | succ k ih =>
    rcases Nat.lt_or_ge m (k + 1) with hlt | hge
    · exact le_trans (ih (by omega)) (daysBeforeMonth_le_succ y k)
    · have : m = k + 1 := by omega
      subst this
      exact le_refl _

lemma daysBeforeMonth_13 (y : ℕ) :
    daysBeforeMonth y 13 = 365 + (if isLeap y then 1 else 0) := by
  have e2 : daysBeforeMonth y 2 = daysBeforeMonth y 1 + daysInMonth y 1 := rfl
  have e3 : daysBeforeMonth y 3 = daysBeforeMonth y 2 + daysInMonth y 2 := rfl
  have e4 : daysBeforeMonth y 4 = daysBeforeMonth y 3 + daysInMonth y 3 := rfl
  have e5 : daysBeforeMonth y 5 = daysBeforeMonth y 4 + daysInMonth y 4 := rfl
  have e6 : daysBeforeMonth y 6 = daysBeforeMonth y 5 + daysInMonth y 5 := rfl
  have e7 : daysBeforeMonth y 7 = daysBeforeMonth y 6 + daysInMonth y 6 := rfl
  have e8 : daysBeforeMonth y 8 = daysBeforeMonth y 7 + daysInMonth y 7 := rfl
  have e9 : daysBeforeMonth y 9 = daysBeforeMonth y 8 + daysInMonth y 8 := rfl
  have e10 : daysBeforeMonth y 10 = daysBeforeMonth y 9 + daysInMonth y 9 := rfl
  have e11 : daysBeforeMonth y 11 = daysBeforeMonth y 10 + daysInMonth y 10 := rfl
  have e12 : daysBeforeMonth y 12 = daysBeforeMonth y 11 + daysInMonth y 11 := rfl
  have e13 : daysBeforeMonth y 13 = daysBeforeMonth y 12 + daysInMonth y 12 := rfl
  have e1 : daysBeforeMonth y 1 = 0 := rfl
  have i1 : daysInMonth y 1 = 31 := by simp [daysInMonth]
  have i3 : daysInMonth y 3 = 31 := by simp [daysInMonth]
  have i4 : daysInMonth y 4 = 30 := by simp [daysInMonth]
  have i5 : daysInMonth y 5 = 31 := by simp [daysInMonth]
  have i6 : daysInMonth y 6 = 30 := by simp [daysInMonth]
  have i7 : daysInMonth y 7 = 31 := by simp [daysInMonth]
  have i8 : daysInMonth y 8 = 31 := by simp [daysInMonth]
  have i9 : daysInMonth y 9 = 30 := by simp [daysInMonth]
  have i10 : daysInMonth y 10 = 31 := by simp [daysInMonth]
  have i11 : daysInMonth y 11 = 30 := by simp [daysInMonth]
  have i12 : daysInMonth y 12 = 31 := by simp [daysInMonth]
  by_cases hL : isLeap y
  · have i2 : daysInMonth y 2 = 29 := by simp [daysInMonth, hL]
    rw [if_pos hL]
    omega
  · have i2 : daysInMonth y 2 = 28 := by simp [daysInMonth, hL]
    rw [if_neg hL]
    omega

lemma dbm_day_le (y : ℕ) {m d : ℕ} (hm1 : 1 ≤ m) (hm2 : m ≤ 12) (hd : d ≤ daysInMonth y m) :
    daysBeforeMonth y m + d ≤ 365 + (if isLeap y then 1 else 0) := by
  have h1 : daysBeforeMonth y m + d ≤ daysBeforeMonth y (m + 1) := by
    rw [daysBeforeMonth_succ y m hm1]
    omega
  have h2 : daysBeforeMonth y (m + 1) ≤ daysBeforeMonth y 13 := daysBeforeMonth_mono y (by omega)
  have h3 := daysBeforeMonth_13 y
  omega

set_option maxHeartbeats 1600000 in
lemma daysBeforeYear_succ {y : ℕ} (hy : 1 ≤ y) :
    daysBeforeYear (y + 1) = daysBeforeYear y + 365 + (if isLeap y then 1 else 0) := by
  unfold daysBeforeYear
  by_cases hL : isLeap y
  · rw [if_pos hL]
    rcases (isLeap_iff y).mp hL with ⟨h4, h100⟩ | h400 <;> omega
  · rw [if_neg hL]
    have hn : ¬ ((y % 4 = 0 ∧ ¬ y % 100 = 0) ∨ y % 400 = 0) := fun hc => hL ((isLeap_iff y).mpr hc)
    push_neg at hn
    omega

lemma daysBeforeYear_le_succ (y : ℕ) : daysBeforeYear y ≤ daysBeforeYear (y + 1) := by
  rcases Nat.eq_zero_or_pos y with h | h
  · subst h
    unfold daysBeforeYear
    omega
  · rw [daysBeforeYear_succ h]
    by_cases hL : isLeap y
    · rw [if_pos hL]
      omega
    · rw [if_neg hL]
      omega

lemma daysBeforeYear_mono {y y' : ℕ} (h : y ≤ y') : daysBeforeYear y ≤ daysBeforeYear y' := by
  induction y' with
  | zero =>
    have hz : y = 0 := by omega
    subst hz
    exact le_refl _
  | succ k ih =>
    rcases Nat.lt_or_ge y (k + 1) with hlt | hge
    · exact le_trans (ih (by omega)) (daysBeforeYear_le_succ k)
    · have hk : y = k + 1 := by omega
      subst hk
      exact le_refl _

lemma nextDate_valid {d : Date} (h : d.Valid) : (nextDate d).Valid := by
  obtain ⟨hy, hm1, hm2, hd1, hd2⟩ := h
  unfold nextDate
  split_ifs with h1 h2
  · exact ⟨hy, hm1, hm2, by show 1 ≤ d.day + 1; omega,
      by show d.day + 1 ≤ daysInMonth d.year d.month; omega⟩
  · exact ⟨hy, by show 1 ≤ d.month + 1; omega, by show d.month + 1 ≤ 12; omega,
      by show (1 : ℕ) ≤ 1; omega,
      by show 1 ≤ daysInMonth d.year (d.month + 1); exact daysInMonth_pos _ _⟩
  · exact ⟨by show 1 ≤ d.year + 1; omega, by show (1 : ℕ) ≤ 1; omega,
      by show (1 : ℕ) ≤ 12; omega, by show (1 : ℕ) ≤ 1; omega,
      by show 1 ≤ daysInMonth (d.year + 1) 1; exact daysInMonth_pos _ _⟩

lemma toOrdinal_nextDate {d : Date} (h : d.Valid) : (nextDate d).toOrdinal = d.toOrdinal + 1 := by
  obtain ⟨hy, hm1, hm2, hd1, hd2⟩ := h
  unfold nextDate
  split_ifs with h1 h2
  · show daysBeforeYear d.year + daysBeforeMonth d.year d.month + (d.day + 1)
      = daysBeforeYear d.year + daysBeforeMonth d.year d.month + d.day + 1
    omega
  · show daysBeforeYear d.year + daysBeforeMonth d.year (d.month + 1) + 1
      = daysBeforeYear d.year + daysBeforeMonth d.year d.month + d.day + 1
    rw [daysBeforeMonth_succ _ _ hm1]
    omega
  · have hm : d.month = 12 := by omega
    show daysBeforeYear (d.year + 1) + daysBeforeMonth (d.year + 1) 1 + 1
      = daysBeforeYear d.year + daysBeforeMonth d.year d.month + d.day + 1
    rw [hm] at h1 hd2 ⊢
    rw [daysBeforeYear_succ hy]
    have h13 := daysBeforeMonth_13 d.year
    have hsucc : daysBeforeMonth d.year 13 = daysBeforeMonth d.year 12 + daysInMonth d.year 12 :=
      rfl
    have h1' : daysBeforeMonth (d.year + 1) 1 = 0 := rfl
    rw [h1']
    obtain ⟨L, hL⟩ : ∃ L, (if isLeap d.year then 1 else 0) = L := ⟨_, rfl⟩
    rw [hL] at h13 ⊢
    omega

/-! ### Lexicographic order vs. ordinals -/

lemma lexLt_irrefl (d : Date) : ¬ d.lexLt d := by
  simp [Date.lexLt]

lemma lexLt_trichotomy (a b : Date) : a.lexLt b ∨ a = b ∨ b.lexLt a := by
  obtain ⟨y1, m1, d1⟩ := a
  obtain ⟨y2, m2, d2⟩ := b
  simp only [Date.lexLt, Date.mk.injEq]
  omega

lemma toOrdinal_lt_of_lexLt {a b : Date} (ha : a.Valid) (hb : b.Valid) (h : a.lexLt b) :
    a.toOrdinal < b.toOrdinal := by
  obtain ⟨hay, ham1, ham2, had1, had2⟩ := ha
  obtain ⟨hby, hbm1, hbm2, hbd1, hbd2⟩ := hb
  rcases h with hy | ⟨hy, hm | ⟨hm, hd⟩⟩
  · have h1 : a.toOrdinal ≤ daysBeforeYear a.year + (365 + (if isLeap a.year then 1 else 0)) := by
      have := dbm_day_le a.year ham1 ham2 had2
      unfold Date.toOrdinal
      omega
    have h2 : daysBeforeYear a.year + 365 + (if isLeap a.year then 1 else 0)
        = daysBeforeYear (a.year + 1) := (daysBeforeYear_succ hay).symm
    have h3 : daysBeforeYear (a.year + 1) ≤ daysBeforeYear b.year := daysBeforeYear_mono (by omega)
    have h4 : daysBeforeYear b.year < b.toOrdinal := by
      unfold Date.toOrdinal
      omega
    omega
  · unfold Date.toOrdinal
    rw [hy]
    have had2' : a.day ≤ daysInMonth b.year a.month := by rw [← hy]; exact had2
    have h1 : daysBeforeMonth b.year a.month + a.day ≤ daysBeforeMonth b.year (a.month + 1) := by
      rw [daysBeforeMonth_succ _ _ ham1]
      omega
    have h2 : daysBeforeMonth b.year (a.month + 1) ≤ daysBeforeMonth b.year b.month :=
      daysBeforeMonth_mono b.year (by omega)
    omega
  · unfold Date.toOrdinal
    rw [hy, hm]
    omega

lemma lexLt_iff_ord {a b : Date} (ha : a.Valid) (hb : b.Valid) :
    a.lexLt b ↔ a.toOrdinal < b.toOrdinal := by
  constructor
  · exact toOrdinal_lt_of_lexLt ha hb
  · intro h
    rcases lexLt_trichotomy a b with h1 | h1 | h1
    · exact h1
    · subst h1
      omega
    · have := toOrdinal_lt_of_lexLt hb ha h1
      omega

lemma lexLe_iff_ord {a b : Date} (ha : a.Valid) (hb : b.Valid) :
    a.lexLe b ↔ a.toOrdinal ≤ b.toOrdinal := by
  unfold Date.lexLe
  constructor
  · rintro (h | rfl)
    · exact le_of_lt ((lexLt_iff_ord ha hb).mp h)
    · exact le_refl _
  · intro h
    rcases lexLt_trichotomy a b with h1 | h1 | h1
    · exact Or.inl h1
    · exact Or.inr h1
    · have := (lexLt_iff_ord hb ha).mp h1
      omega

lemma toOrdinal_inj {a b : Date} (ha : a.Valid) (hb : b.Valid)
    (h : a.toOrdinal = b.toOrdinal) : a = b := by
  rcases lexLt_trichotomy a b with h1 | h1 | h1
  · have := (lexLt_iff_ord ha hb).mp h1
    omega
  · exact h1
  · have := (lexLt_iff_ord hb ha).mp h1
    omega

/-! ### The daterange loop -/

/-- On valid dates `daterange` satisfies exactly the recurrence of the
Python loop: emit `start` while `start < end`, then recurse from the next
day. -/
lemma daterange_eq {s f : Date} (hs : s.Valid) (hf : f.Valid) :
    daterange s f = if s.lexLt f then s :: daterange (nextDate s) f else [] := by
  unfold daterange
  by_cases h : s.lexLt f
  · rw [if_pos h]
    have hord : s.toOrdinal < f.toOrdinal := (lexLt_iff_ord hs hf).mp h
    have hnext : (nextDate s).toOrdinal = s.toOrdinal + 1 := toOrdinal_nextDate hs
    obtain ⟨k, hk⟩ : ∃ k, f.toOrdinal - s.toOrdinal = k + 1 :=
      ⟨f.toOrdinal - s.toOrdinal - 1, by omega⟩
    rw [hk]
    show (if s.lexLt f then s :: daterangeAux f k (nextDate s) else []) = _
    rw [if_pos h]
    have hk' : f.toOrdinal - (nextDate s).toOrdinal = k := by omega
    rw [hk']
  · rw [if_neg h]
    cases hd : f.toOrdinal - s.toOrdinal with
    | zero => rfl
    | succ k =>
      show (if s.lexLt f then s :: daterangeAux f k (nextDate s) else []) = _
      rw [if_neg h]

lemma daterange_nil {s f : Date} (hs : s.Valid) (hf : f.Valid) (h : ¬ s.lexLt f) :
    daterange s f = [] := by
  rw [daterange_eq hs hf, if_neg h]

/-- Membership in `daterange`: exactly the valid days `d` with
`start <= d < end`. -/
lemma mem_daterange {s f d : Date} (hs : s.Valid) (hf : f.Valid) :
    d ∈ daterange s f ↔ (d.Valid ∧ s.lexLe d ∧ d.lexLt f) := by
  obtain ⟨n, hn⟩ : ∃ n, f.toOrdinal - s.toOrdinal = n := ⟨_, rfl⟩
  induction n using Nat.strong_induction_on generalizing s with
  | _ n ih =>
    rw [daterange_eq hs hf]
    by_cases h : s.lexLt f
    · rw [if_pos h]
      have hord : s.toOrdinal < f.toOrdinal := (lexLt_iff_ord hs hf).mp h
      have hnv : (nextDate s).Valid := nextDate_valid hs
      have hno : (nextDate s).toOrdinal = s.toOrdinal + 1 := toOrdinal_nextDate hs
      have hrec := ih (f.toOrdinal - (nextDate s).toOrdinal) (by omega) hnv rfl
      simp only [List.mem_cons, hrec]
      constructor
      · rintro (rfl | ⟨hdv, hle, hlt⟩)
        · exact ⟨hs, Or.inr rfl, h⟩
        · refine ⟨hdv, ?_, hlt⟩
          have h1 : (nextDate s).toOrdinal ≤ d.toOrdinal := (lexLe_iff_ord hnv hdv).mp hle
          exact (lexLe_iff_ord hs hdv).mpr (by omega)
      · rintro ⟨hdv, hle, hlt⟩
        have h1 : s.toOrdinal ≤ d.toOrdinal := (lexLe_iff_ord hs hdv).mp hle
        rcases Nat.eq_or_lt_of_le h1 with heq | hlt'
        · exact Or.inl (toOrdinal_inj hdv hs heq.symm)
        · exact Or.inr ⟨hdv, (lexLe_iff_ord hnv hdv).mpr (by omega), hlt⟩
    · rw [if_neg h]
      simp only [List.not_mem_nil, false_iff]
      rintro ⟨hdv, hle, hlt⟩
      have h1 : s.toOrdinal ≤ d.toOrdinal := (lexLe_iff_ord hs hdv).mp hle
      have h2 : d.toOrdinal < f.toOrdinal := (lexLt_iff_ord hdv hf).mp hlt
      exact h ((lexLt_iff_ord hs hf).mpr (by omega))

/-- Splitting a stay at an intermediate date splits its day list. -/
lemma daterange_append {a b c : Date} (ha : a.Valid) (hb : b.Valid) (hc : c.Valid)
    (hab : a.lexLe b) (hbc : b.lexLe c) :
    daterange a c = daterange a b ++ daterange b c := by
  obtain ⟨n, hn⟩ : ∃ n, b.toOrdinal - a.toOrdinal = n := ⟨_, rfl⟩
  induction n using Nat.strong_induction_on generalizing a with
  | _ n ih =>
    by_cases h : a.lexLt b
    · have hordb : a.toOrdinal < b.toOrdinal := (lexLt_iff_ord ha hb).mp h
      have hordc : b.toOrdinal ≤ c.toOrdinal := (lexLe_iff_ord hb hc).mp hbc
      have hac : a.lexLt c := (lexLt_iff_ord ha hc).mpr (by omega)
      have hnv : (nextDate a).Valid := nextDate_valid ha
      have hno : (nextDate a).toOrdinal = a.toOrdinal + 1 := toOrdinal_nextDate ha
      rw [daterange_eq ha hc, if_pos hac, daterange_eq ha hb, if_pos h]
      have hnb : (nextDate a).lexLe b := (lexLe_iff_ord hnv hb).mpr (by omega)
      rw [ih (b.toOrdinal - (nextDate a).toOrdinal) (by omega) hnv hnb rfl]
      rfl
    · have heq : a = b := by
        rcases hab with h1 | h1
        · exact absurd h1 h
        · exact h1
      subst heq
      rw [daterange_nil ha ha (lexLt_irrefl a)]
      rfl

/-- A one-night stay contains exactly its check-in day. -/
lemma daterange_one_night {s : Date} (hs : s.Valid) :
    daterange s (nextDate s) = [s] := by
  have hnv : (nextDate s).Valid := nextDate_valid hs
  have hno : (nextDate s).toOrdinal = s.toOrdinal + 1 := toOrdinal_nextDate hs
  rw [daterange_eq hs hnv, if_pos ((lexLt_iff_ord hs hnv).mpr (by omega)),
    daterange_nil hnv hnv (lexLt_irrefl _)]

/-! ### The accumulation loop -/

lemma priceLoop_append (room : Room) (seasons : List Season) (l1 l2 : List Date) (t : ℚ) :
    priceLoop room seasons (l1 ++ l2) t =
      match priceLoop room seasons l1 t with
      | .error e => .error e
      | .ok t1 => priceLoop room seasons l2 t1 := by
  induction l1 generalizing t with
  | nil => rfl
  | cons d rest ih =>
    simp only [List.cons_append, priceLoop]
    cases h : day_base d seasons with
    | error e => rfl
    | ok base => exact ih _

lemma priceLoop_shift (room : Room) (seasons : List Season) (l : List Date) (t : ℚ) :
    priceLoop room seasons l t = (priceLoop room seasons l 0).map (fun r => t + r) := by
  induction l generalizing t with
  | nil => simp [priceLoop, Except.map]
  | cons d rest ih =>
    simp only [priceLoop]
    cases h : day_base d seasons with
    | error e => simp [Except.map]
    | ok base =>
      show priceLoop room seasons rest (t + base * room.multiplier.getD 1)
        = Except.map (fun r => t + r) (priceLoop room seasons rest (0 + base * room.multiplier.getD 1))
      rw [ih (t + base * room.multiplier.getD 1), ih (0 + base * room.multiplier.getD 1)]
      cases priceLoop room seasons rest 0 with
      | error e => simp [Except.map]
      | ok r =>
        simp only [Except.map]
        congr 1
        ring

lemma season_for_day_mem {d : Date} {seasons : List Season} {s : Season}
    (h : season_for_day d seasons = .ok (some s)) : s ∈ seasons := by
  induction seasons with
  | nil => simp [season_for_day] at h
  | cons a rest ih =>
    simp only [season_for_day] at h
    cases hm : seasonMatch d a with
    | error e =>
      rw [hm] at h
      cases h
    | ok b =>
      rw [hm] at h
      cases b with
      | true =>
        injection h with h
        injection h with h
        exact h ▸ List.mem_cons_self a rest
      | false => exact List.mem_cons_of_mem a (ih h)

lemma day_base_nonneg {d : Date} {seasons : List Season} {base : ℚ}
    (hr : ∀ s ∈ seasons, ∀ r : ℚ, s.rate = some r → 0 ≤ r)
    (h : day_base d seasons = .ok base) : 0 ≤ base := by
  unfold day_base at h
  cases hs : season_for_day d seasons with
  | error e =>
    rw [hs] at h
    cases h
  | ok so =>
    rw [hs] at h
    injection h with h
    subst h
    cases so with
    | none => simp [rate_or_zero]
    | some s =>
      have hmem := season_for_day_mem hs
      cases hrate : s.rate with
      | none => simp [rate_or_zero, hrate]
      | some r =>
        simp only [rate_or_zero, hrate, Option.getD_some]
        exact hr s hmem r hrate

lemma priceLoop_ge {room : Room} {seasons : List Season} {l : List Date} {t r : ℚ}
    (hm : ∀ m : ℚ, room.multiplier = some m → 0 ≤ m)
    (hr : ∀ s ∈ seasons, ∀ rr : ℚ, s.rate = some rr → 0 ≤ rr)
    (h : priceLoop room seasons l t = .ok r) : t ≤ r := by
  induction l generalizing t with
  | nil =>
    injection h with h
    exact le_of_eq h
  | cons d rest ih =>
    simp only [priceLoop] at h
    cases hb : day_base d seasons with
    | error e =>
      rw [hb] at h
      cases h
    | ok base =>
      rw [hb] at h
      have h1 : 0 ≤ base := day_base_nonneg hr hb
      have h2 : 0 ≤ room.multiplier.getD 1 := by
        cases hmu : room.multiplier with
        | none => simp
        | some m => simpa using hm m hmu
      have h3 := ih h
      nlinarith

/-! ### Rounding lemmas -/

lemma rhe_intCast (n : ℤ) : rhe (n : ℚ) = n := by
  unfold rhe
  rw [Int.floor_intCast]
  rw [if_pos]
  norm_num

lemma floor_le_rhe (q : ℚ) : ⌊q⌋ ≤ rhe q := by
  unfold rhe
  split_ifs <;> omega

lemma rhe_le_floor_succ (q : ℚ) : rhe q ≤ ⌊q⌋ + 1 := by
  unfold rhe
  split_ifs <;> omega

lemma rhe_mono {a b : ℚ} (h : a ≤ b) : rhe a ≤ rhe b := by
  by_cases hf : ⌊a⌋ = ⌊b⌋
  · unfold rhe
    rw [hf]
    split_ifs <;> first | omega | linarith
  · have hlt : ⌊a⌋ < ⌊b⌋ := lt_of_le_of_ne (Int.floor_le_floor h) hf
    have h1 := rhe_le_floor_succ a
    have h2 := floor_le_rhe b
    omega

lemma round2_mono {a b : ℚ} (h : a ≤ b) : round2 a ≤ round2 b := by
  unfold round2
  have h1 : rhe (a * 100) ≤ rhe (b * 100) := rhe_mono (by linarith)
  have h2 : ((rhe (a * 100) : ℚ)) ≤ (rhe (b * 100) : ℚ) := Int.cast_le.mpr h1
  have h100 : (0 : ℚ) < 100 := by norm_num
  exact (div_le_div_right h100).mpr h2

lemma round2_eq_self {q : ℚ} (h : ∃ n : ℤ, (n : ℚ) = q * 100) : round2 q = q := by
  obtain ⟨n, hn⟩ := h
  unfold round2
  rw [← hn, rhe_intCast, hn]
  ring

lemma round2_add_cents {a b : ℚ} (ha : ∃ n : ℤ, (n : ℚ) = a * 100)
    (hb : ∃ n : ℤ, (n : ℚ) = b * 100) :
    round2 (a + b) = round2 a + round2 b := by
  obtain ⟨n, hn⟩ := ha
  obtain ⟨m, hm⟩ := hb
  rw [round2_eq_self ⟨n, hn⟩, round2_eq_self ⟨m, hm⟩,
    round2_eq_self ⟨n + m, by push_cast; linarith⟩]

/-! ### Success lemmas -/

lemma lexLe_refl (a : Date) : a.lexLe a := Or.inr rfl

lemma lexLe_antisymm {a b : Date} (h1 : a.lexLe b) (h2 : b.lexLe a) : a = b := by
  rcases h1 with h1 | rfl
  · rcases h2 with h2 | rfl
    · exfalso
      obtain ⟨y1, m1, d1⟩ := a
      obtain ⟨y2, m2, d2⟩ := b
      simp only [Date.lexLt] at h1 h2
      omega
    · rfl
  · rfl

lemma date_eq_iff {d : Date} {m dd : ℕ} : d = ⟨d.year, m, dd⟩ ↔ (d.month = m ∧ d.day = dd) := by
  constructor
  · intro h
    exact ⟨by rw [h], by rw [h]⟩
  · rintro ⟨h1, h2⟩
    obtain ⟨y, mm, ddd⟩ := d
    simp only at h1 h2
    rw [h1, h2]

lemma seasonMatch_isOk {d : Date} {s : Season}
    (h1 : ∃ b, mkDate d.year s.start_month s.start_day = .ok b)
    (h2 : ∃ b, mkDate d.year s.end_month s.end_day = .ok b) :
    ∃ b, seasonMatch d s = .ok b := by
  obtain ⟨b1, hb1⟩ := h1
  obtain ⟨b2, hb2⟩ := h2
  unfold seasonMatch
  simp only [hb1, hb2]
  split_ifs <;> exact ⟨_, rfl⟩

lemma season_for_day_isOk {d : Date} {seasons : List Season}
    (h : ∀ s ∈ seasons, ∃ b, seasonMatch d s = .ok b) :
    ∃ so, season_for_day d seasons = .ok so := by
  induction seasons with
  | nil => exact ⟨none, rfl⟩
  | cons a rest ih =>
    obtain ⟨b, hb⟩ := h a (List.mem_cons_self a rest)
    cases b with
    | true => exact ⟨some a, by simp [season_for_day, hb]⟩
    | false =>
      obtain ⟨so, hso⟩ := ih (fun s hs => h s (List.mem_cons_of_mem a hs))
      exact ⟨so, by simp [season_for_day, hb, hso]⟩

lemma day_base_isOk {d : Date} {seasons : List Season}
    (h : ∃ so, season_for_day d seasons = .ok so) :
    ∃ q, day_base d seasons = .ok q := by
  obtain ⟨so, hso⟩ := h
  exact ⟨rate_or_zero so, by unfold day_base; rw [hso]⟩

lemma priceLoop_isOk {room : Room} {seasons : List Season} {l : List Date}
    (h : ∀ d ∈ l, ∃ so, season_for_day d seasons = .ok so) (t : ℚ) :
    ∃ r, priceLoop room seasons l t = .ok r := by
  induction l generalizing t with
  | nil => exact ⟨t, rfl⟩
  | cons d rest ih =>
    obtain ⟨q, hq⟩ := day_base_isOk (h d (List.mem_cons_self d rest))
    obtain ⟨r, hr⟩ := ih (fun d' hd' => h d' (List.mem_cons_of_mem d hd'))
      (t + q * room.multiplier.getD 1)
    exact ⟨r, by simp [priceLoop, hq, hr]⟩

/-! ### Claims -/

/-- C1 counterexample: the claim says a season whose end boundary is equal
to its start boundary wraps the year, so a day `d` at or before the
boundary would be contained (`d <= end-this-year`). With the season
5/5 - 5/5 and day 2023-01-01, the boundary instantiates to 2023-05-05, the
end boundary is (weakly) before the start boundary and the day is before
the end boundary, yet `season_for_day` reports no containment: the code
wraps only on a strict inequality. -/
theorem C1_counterexample :
    Date.lexLe ⟨2023, 5, 5⟩ ⟨2023, 5, 5⟩ ∧
    Date.lexLe ⟨2023, 1, 1⟩ ⟨2023, 5, 5⟩ ∧
    mkDate 2023 5 5 = .ok ⟨2023, 5, 5⟩ ∧
    season_for_day ⟨2023, 1, 1⟩ [⟨"Equal", 5, 5, 5, 5, some 10⟩] = .ok none :=
  ⟨by decide, by decide, rfl, rfl⟩

/-- C1 (amended): containment in a season's recurring range, with both
boundaries instantiated in the day's year, wraps the year end exactly when
the end boundary is strictly before the start boundary (`d >= start` OR
`d <= end`); otherwise — end boundary after **or equal to** the start
boundary — it is the plain interval test (`start <= d <= end`). -/
theorem C1_wrap_strict (d : Date) (s : Season) (b e : Date)
    (hb : mkDate d.year s.start_month s.start_day = .ok b)
    (he : mkDate d.year s.end_month s.end_day = .ok e) :
    (e.lexLt b → (season_for_day d [s] = .ok (some s) ↔ (b.lexLe d ∨ d.lexLe e))) ∧
    (¬ e.lexLt b → (season_for_day d [s] = .ok (some s) ↔ (b.lexLe d ∧ d.lexLe e))) := by
  constructor <;> intro hw
  · by_cases hc : (b.lexLe d ∨ d.lexLe e)
    · simp [season_for_day, seasonMatch, hb, he, hw, hc]
    · simp [season_for_day, seasonMatch, hb, he, hw, hc]
  · by_cases hc : (b.lexLe d ∧ d.lexLe e)
    · simp [season_for_day, seasonMatch, hb, he, hw, hc]
    · simp [season_for_day, seasonMatch, hb, he, hw, hc]

/-- C1 witness: the Summer season 7/1 - 9/30 (non-wrapping: end after
start) contains 2023-08-15 by the plain interval test. -/
theorem C1_wrap_strict_witness :
    season_for_day ⟨2023, 8, 15⟩ [⟨"Summer", 7, 1, 9, 30, some 35⟩]
      = .ok (some ⟨"Summer", 7, 1, 9, 30, some 35⟩) :=
  ((C1_wrap_strict ⟨2023, 8, 15⟩ ⟨"Summer", 7, 1, 9, 30, some 35⟩ ⟨2023, 7, 1⟩ ⟨2023, 9, 30⟩
    rfl rfl).2 (by decide)).mpr (by decide)

/-- C4: first-match tie-break. If no season before `s` in the list matches
day `d`, `s` matches, and some later season `s2` also matches (an
overlap), then `season_for_day` returns `s` and the base rate used for the
day is `s`'s rate — never the later season's. -/
theorem C4_first_match (d : Date) (pre post : List Season) (s s2 : Season)
    (hpre : ∀ s1 ∈ pre, seasonMatch d s1 = .ok false)
    (hs : seasonMatch d s = .ok true)
    (hs2 : s2 ∈ post) (hs2m : seasonMatch d s2 = .ok true) :
    season_for_day d (pre ++ s :: post) = .ok (some s) ∧
    day_base d (pre ++ s :: post) = .ok (s.rate.getD 0) := by
  have hmain : season_for_day d (pre ++ s :: post) = .ok (some s) := by
    induction pre with
    | nil => simp [season_for_day, hs]
    | cons a rest ih =>
      have ha := hpre a (List.mem_cons_self a rest)
      simp only [List.cons_append, season_for_day, ha]
      exact ih (fun s1 h1 => hpre s1 (List.mem_cons_of_mem a h1))
  refine ⟨hmain, ?_⟩
  unfold day_base
  rw [hmain]
  rfl

/-- C4 witness: two all-year seasons with rates 10 and 20; the first one in
list order wins and its rate 10 is the base used. -/
theorem C4_first_match_witness :
    season_for_day ⟨2023, 1, 1⟩
        [⟨"A", 1, 1, 12, 31, some 10⟩, ⟨"B", 1, 1, 12, 31, some 20⟩]
      = .ok (some ⟨"A", 1, 1, 12, 31, some 10⟩) ∧
    day_base ⟨2023, 1, 1⟩ [⟨"A", 1, 1, 12, 31, some 10⟩, ⟨"B", 1, 1, 12, 31, some 20⟩]
      = .ok 10 :=
  C4_first_match ⟨2023, 1, 1⟩ [] [⟨"B", 1, 1, 12, 31, some 20⟩]
    ⟨"A", 1, 1, 12, 31, some 10⟩ ⟨"B", 1, 1, 12, 31, some 20⟩
    (by simp) rfl (List.mem_singleton.mpr rfl) rfl

/-- C8: when the first matching season record has no `rate` field, the
day's base rate is 0 — the same value as for a day with no matching season
at all — because `compute_price` reads the rate with `s.get("rate", 0.0)`. -/
theorem C8_missing_rate (d : Date) (seasons : List Season) (s : Season)
    (h : season_for_day d seasons = .ok (some s)) (hrate : s.rate = none) :
    day_base d seasons = .ok 0 ∧ day_base d [] = .ok 0 := by
  refine ⟨?_, rfl⟩
  unfold day_base
  rw [h]
  simp [rate_or_zero, hrate]

/-- C8 witness: an all-year season without a rate prices its days at base 0. -/
theorem C8_missing_rate_witness :
    day_base ⟨2023, 1, 1⟩ [⟨"NoRate", 1, 1, 12, 31, none⟩] = .ok 0 ∧
    day_base ⟨2023, 1, 1⟩ [] = .ok 0 :=
  C8_missing_rate ⟨2023, 1, 1⟩ [⟨"NoRate", 1, 1, 12, 31, none⟩]
    ⟨"NoRate", 1, 1, 12, 31, none⟩ rfl rfl

/-- C9: a season whose end boundary equals its start boundary (same month,
same day) takes the non-wrapping branch and contains exactly the one day
per year whose month and day equal that boundary. -/
theorem C9_single_day (d : Date) (s : Season) (hd : d.Valid)
    (hm : s.end_month = s.start_month) (hdy : s.end_day = s.start_day) :
    (season_for_day d [s] = .ok (some s)) ↔ (d.month = s.start_month ∧ d.day = s.start_day) := by
  cases hmk : mkDate d.year s.start_month s.start_day with
  | error e =>
    have hlhs : season_for_day d [s] = .error e := by
      simp [season_for_day, seasonMatch, hm, hdy, hmk]
    rw [hlhs]
    simp only [reduceCtorEq, false_iff]
    rintro ⟨h1, h2⟩
    have hv : Date.Valid ⟨d.year, s.start_month, s.start_day⟩ := by
      rw [← h1, ← h2]
      exact hd
    unfold mkDate at hmk
    rw [if_pos hv] at hmk
    cases hmk
  | ok b =>
    have hb : Date.Valid ⟨d.year, s.start_month, s.start_day⟩ ∧
        b = ⟨d.year, s.start_month, s.start_day⟩ := by
      unfold mkDate at hmk
      by_cases h : Date.Valid ⟨d.year, s.start_month, s.start_day⟩
      · rw [if_pos h] at hmk
        refine ⟨h, ?_⟩
        injection hmk with h'
        exact h'.symm
      · rw [if_neg h] at hmk
        cases hmk
    obtain ⟨hv, rfl⟩ := hb
    have hstep : season_for_day d [s]
        = if (Date.lexLe ⟨d.year, s.start_month, s.start_day⟩ d ∧
              Date.lexLe d ⟨d.year, s.start_month, s.start_day⟩)
          then .ok (some s) else .ok none := by
      simp only [season_for_day, seasonMatch, hm, hdy, hmk]
      rw [if_neg (lexLt_irrefl _)]
      split_ifs <;> rfl
    rw [hstep]
    by_cases hc : (Date.lexLe ⟨d.year, s.start_month, s.start_day⟩ d ∧
        Date.lexLe d ⟨d.year, s.start_month, s.start_day⟩)
    · rw [if_pos hc]
      have heq : d = ⟨d.year, s.start_month, s.start_day⟩ := lexLe_antisymm hc.2 hc.1
      have hmd := date_eq_iff.mp heq
      simp [hmd.1, hmd.2]
    · rw [if_neg hc]
      simp only [Except.ok.injEq, reduceCtorEq, false_iff]
      · rintro ⟨h1, h2⟩
        exact hc ⟨by rw [date_eq_iff.mpr ⟨h1, h2⟩]; exact lexLe_refl _,
          by rw [date_eq_iff.mpr ⟨h1, h2⟩]; exact lexLe_refl _⟩

/-- C9 witness: the degenerate season 3/15 - 3/15 contains 2023-03-15 and
does not contain 2023-03-16. -/
theorem C9_single_day_witness :
    (season_for_day ⟨2023, 3, 15⟩ [⟨"OneDay", 3, 15, 3, 15, some 10⟩]
      = .ok (some ⟨"OneDay", 3, 15, 3, 15, some 10⟩)) ∧
    ¬ (season_for_day ⟨2023, 3, 16⟩ [⟨"OneDay", 3, 15, 3, 15, some 10⟩]
      = .ok (some ⟨"OneDay", 3, 15, 3, 15, some 10⟩)) :=
  ⟨(C9_single_day ⟨2023, 3, 15⟩ ⟨"OneDay", 3, 15, 3, 15, some 10⟩
      (by decide) rfl rfl).mpr ⟨rfl, rfl⟩,
   fun h => by
    have := (C9_single_day ⟨2023, 3, 16⟩ ⟨"OneDay", 3, 15, 3, 15, some 10⟩
      (by decide) rfl rfl).mp h
    simp at this⟩

lemma rhe_eval_down {q : ℚ} {n : ℤ} (hfl : ⌊q⌋ = n) (h : q - (n : ℚ) < 1/2) : rhe q = n := by
  unfold rhe
  rw [hfl, if_pos h]

lemma rhe_eval_up {q : ℚ} {n : ℤ} (hfl : ⌊q⌋ = n) (h : (1 : ℚ)/2 < q - (n : ℚ)) :
    rhe q = n + 1 := by
  unfold rhe
  rw [hfl, if_neg (by linarith), if_pos h]

/-- C5: exactly the days of the half-open range `[check_in, check_out)`
are priced. Membership in the priced day list is equivalent to
`check_in <= d < check_out`; `check_out` itself is never in it; and a
one-night stay (`check_out` = day after `check_in`) prices exactly the
check-in day. -/
theorem C5_half_open (ci co : Date) (h1 : ci.Valid) (h2 : co.Valid) :
    (∀ d : Date, d ∈ daterange ci co ↔ (d.Valid ∧ ci.lexLe d ∧ d.lexLt co)) ∧
    co ∉ daterange ci co ∧
    (co = nextDate ci → daterange ci co = [ci]) := by
  refine ⟨fun d => mem_daterange h1 h2, ?_, ?_⟩
  · intro hmem
    obtain ⟨_, _, hlt⟩ := (mem_daterange h1 h2).mp hmem
    exact lexLt_irrefl co hlt
  · rintro rfl
    exact daterange_one_night h1

/-- C5 witness: for the one-night stay 2023-01-01 to 2023-01-02, the
check-out day is not priced and exactly one day is. -/
theorem C5_half_open_witness :
    (⟨2023, 1, 2⟩ : Date) ∉ daterange ⟨2023, 1, 1⟩ ⟨2023, 1, 2⟩ ∧
    daterange ⟨2023, 1, 1⟩ ⟨2023, 1, 2⟩ = [⟨2023, 1, 1⟩] :=
  ⟨(C5_half_open ⟨2023, 1, 1⟩ ⟨2023, 1, 2⟩ (by decide) (by decide)).2.1,
   (C5_half_open ⟨2023, 1, 1⟩ ⟨2023, 1, 2⟩ (by decide) (by decide)).2.2 (by decide)⟩

/-- C2 counterexample: a season whose fields satisfy the claimed bounds
(months in [1,12], days in [1,31], non-negative rate) can still make the
pricing computation raise: boundary 2/30 is not a calendar date, so
`date(2023, 2, 30)` raises `ValueError` and `compute_price` propagates it
even for an ordered one-night stay. -/
theorem C2_counterexample :
    ((1 ≤ 2 ∧ 2 ≤ 12) ∧ (1 ≤ 30 ∧ 30 ≤ 31) ∧ (1 ≤ 3 ∧ 3 ≤ 12) ∧ (1 ≤ 1 ∧ 1 ≤ 31)) ∧
    (0 : ℚ) ≤ 10 ∧
    Date.lexLt ⟨2023, 1, 1⟩ ⟨2023, 1, 2⟩ ∧
    compute_price ⟨"r1", some 2, some 1⟩ [⟨"Bad", 2, 30, 3, 1, some 10⟩]
      ⟨2023, 1, 1⟩ ⟨2023, 1, 2⟩ = .error () :=
  ⟨by decide, by norm_num, by decide, rfl⟩

/-- C2 (amended): if every season's start and end month/day pair is a
valid calendar date in every (positive) year, then for every room and
every ordered pair of valid dates the pricing computation succeeds; and a
day with no matching season is priced at base rate 0 rather than failing. -/
theorem C2_total_on_valid_boundaries (room : Room) (seasons : List Season) (ci co : Date)
    (hci : ci.Valid) (hco : co.Valid) (hlt : ci.lexLt co)
    (hb : ∀ s ∈ seasons, ∀ y : ℕ, 1 ≤ y →
      (∃ b, mkDate y s.start_month s.start_day = .ok b) ∧
      (∃ b, mkDate y s.end_month s.end_day = .ok b)) :
    (∃ q, compute_price room seasons ci co = .ok q) ∧
    (∀ d : Date, season_for_day d seasons = .ok none → day_base d seasons = .ok 0) := by
  constructor
  · have hdays : ∀ d ∈ daterange ci co, ∃ so, season_for_day d seasons = .ok so := by
      intro d hd
      have hdv : d.Valid := ((mem_daterange hci hco).mp hd).1
      exact season_for_day_isOk
        (fun s hs => seasonMatch_isOk (hb s hs d.year hdv.1).1 (hb s hs d.year hdv.1).2)
    obtain ⟨r, hr⟩ := priceLoop_isOk hdays 0
    refine ⟨round2 r, ?_⟩
    unfold compute_price compute_price_raw
    rw [hr]
  · intro d hnone
    unfold day_base
    rw [hnone]
    rfl

/-- C2 witness: with an all-year season (boundaries 1/1 and 12/31, valid
in every year) the one-night stay 2023-01-01 to 2023-01-02 is priced
without error. -/
theorem C2_total_witness :
    ∃ q, compute_price ⟨"r1", some 2, some 1⟩ [⟨"AllYear", 1, 1, 12, 31, some 10⟩]
      ⟨2023, 1, 1⟩ ⟨2023, 1, 2⟩ = .ok q :=
  (C2_total_on_valid_boundaries ⟨"r1", some 2, some 1⟩ [⟨"AllYear", 1, 1, 12, 31, some 10⟩]
    ⟨2023, 1, 1⟩ ⟨2023, 1, 2⟩ (by decide) (by decide) (by decide)
    (by
      rintro s hs y hy
      simp only [List.mem_singleton] at hs
      subst hs
      refine ⟨⟨⟨y, 1, 1⟩, ?_⟩, ⟨⟨y, 12, 31⟩, ?_⟩⟩
      · simp [mkDate, Date.Valid, daysInMonth, hy]
      · simp [mkDate, Date.Valid, daysInMonth, hy])).1

/-- C3 counterexample: with a single all-year season of rate 0.004 and
multiplier 1, the stay Jan 1 - Jan 3 2023 prices to 0.01, but its two
one-night halves each price to 0.00: the final 2-decimal rounding breaks
exact additivity for sub-cent day prices. -/
theorem C3_counterexample :
    Date.lexLt ⟨2023, 1, 1⟩ ⟨2023, 1, 2⟩ ∧ Date.lexLt ⟨2023, 1, 2⟩ ⟨2023, 1, 3⟩ ∧
    compute_price ⟨"r1", some 2, some 1⟩ [⟨"Tiny", 1, 1, 12, 31, some (1/250)⟩]
      ⟨2023, 1, 1⟩ ⟨2023, 1, 3⟩ = .ok (1/100) ∧
    compute_price ⟨"r1", some 2, some 1⟩ [⟨"Tiny", 1, 1, 12, 31, some (1/250)⟩]
      ⟨2023, 1, 1⟩ ⟨2023, 1, 2⟩ = .ok 0 ∧
    compute_price ⟨"r1", some 2, some 1⟩ [⟨"Tiny", 1, 1, 12, 31, some (1/250)⟩]
      ⟨2023, 1, 2⟩ ⟨2023, 1, 3⟩ = .ok 0 ∧
    (1/100 : ℚ) ≠ 0 + 0 := by
  have hval13 : round2 (0 + 1/250 * 1 + 1/250 * 1 : ℚ) = 1/100 := by
    have h4 : (0 + 1/250 * 1 + 1/250 * 1 : ℚ) * 100 = 4/5 := by norm_num
    unfold round2
    rw [h4, rhe_eval_up (show ⌊(4/5 : ℚ)⌋ = 0 by norm_num [Int.floor_eq_iff]) (by norm_num)]
    norm_num
  have hval1 : round2 (0 + 1/250 * 1 : ℚ) = 0 := by
    have h4 : (0 + 1/250 * 1 : ℚ) * 100 = 2/5 := by norm_num
    unfold round2
    rw [h4, rhe_eval_down (show ⌊(2/5 : ℚ)⌋ = 0 by norm_num [Int.floor_eq_iff]) (by norm_num)]
    norm_num
  refine ⟨by decide, by decide, ?_, ?_, ?_, by norm_num⟩
  · rw [show compute_price ⟨"r1", some 2, some 1⟩ [⟨"Tiny", 1, 1, 12, 31, some (1/250)⟩]
        ⟨2023, 1, 1⟩ ⟨2023, 1, 3⟩ = .ok (round2 (0 + 1/250 * 1 + 1/250 * 1)) from rfl, hval13]
  · rw [show compute_price ⟨"r1", some 2, some 1⟩ [⟨"Tiny", 1, 1, 12, 31, some (1/250)⟩]
        ⟨2023, 1, 1⟩ ⟨2023, 1, 2⟩ = .ok (round2 (0 + 1/250 * 1)) from rfl, hval1]
  · rw [show compute_price ⟨"r1", some 2, some 1⟩ [⟨"Tiny", 1, 1, 12, 31, some (1/250)⟩]
        ⟨2023, 1, 2⟩ ⟨2023, 1, 3⟩ = .ok (round2 (0 + 1/250 * 1)) from rfl, hval1]

/-- C3 (amended): additivity holds exactly for the pre-rounding totals:
splitting a stay at any intermediate date splits the raw total as a sum.
The rounded totals reported by `compute_price` additionally satisfy the
claimed equation whenever both sub-stay totals are whole numbers of cents
(so that the final rounding is the identity on them). -/
theorem C3_additive (room : Room) (seasons : List Season) (d1 d2 d3 : Date)
    (h1 : d1.Valid) (h2 : d2.Valid) (h3 : d3.Valid)
    (h12 : d1.lexLt d2) (h23 : d2.lexLt d3)
    (t12 t23 : ℚ)
    (hc12 : compute_price_raw room seasons d1 d2 = .ok t12)
    (hc23 : compute_price_raw room seasons d2 d3 = .ok t23) :
    compute_price_raw room seasons d1 d3 = .ok (t12 + t23) ∧
    ((∃ n : ℤ, (n : ℚ) = t12 * 100) → (∃ n : ℤ, (n : ℚ) = t23 * 100) →
      compute_price room seasons d1 d3 = .ok (round2 t12 + round2 t23) ∧
      compute_price room seasons d1 d2 = .ok (round2 t12) ∧
      compute_price room seasons d2 d3 = .ok (round2 t23)) := by
  have hsplit : daterange d1 d3 = daterange d1 d2 ++ daterange d2 d3 :=
    daterange_append h1 h2 h3 (Or.inl h12) (Or.inl h23)
  have hraw : compute_price_raw room seasons d1 d3 = .ok (t12 + t23) := by
    unfold compute_price_raw at hc12 hc23 ⊢
    rw [hsplit, priceLoop_append, hc12]
    show priceLoop room seasons (daterange d2 d3) t12 = .ok (t12 + t23)
    rw [priceLoop_shift, hc23]
    rfl
  refine ⟨hraw, fun hcent12 hcent23 => ⟨?_, ?_, ?_⟩⟩
  · unfold compute_price
    rw [hraw]
    show Except.ok (round2 (t12 + t23)) = _
    rw [round2_add_cents hcent12 hcent23]
  · unfold compute_price
    rw [hc12]
  · unfold compute_price
    rw [hc23]

/-- C3 witness: with an all-year rate-10 season and multiplier 1, the raw
total of Jan 1 - Jan 3 2023 is the sum of the raw totals of its two
one-night halves. -/
theorem C3_additive_witness :
    compute_price_raw ⟨"r1", some 2, some 1⟩ [⟨"AllYear", 1, 1, 12, 31, some 10⟩]
      ⟨2023, 1, 1⟩ ⟨2023, 1, 3⟩ = .ok ((0 + 10 * 1) + (0 + 10 * 1)) :=
  (C3_additive ⟨"r1", some 2, some 1⟩ [⟨"AllYear", 1, 1, 12, 31, some 10⟩]
    ⟨2023, 1, 1⟩ ⟨2023, 1, 2⟩ ⟨2023, 1, 3⟩
    (by decide) (by decide) (by decide) (by decide) (by decide)
    (0 + 10 * 1) (0 + 10 * 1) rfl rfl).1

/-- C7: with a non-negative room multiplier and non-negative season rates,
extending a stay (same check-in, later-or-equal check-out) never lowers
the computed total: each extra day adds a non-negative amount, and the
2-decimal rounding is monotone. -/
theorem C7_monotone (room : Room) (seasons : List Season) (ci co co' : Date)
    (hci : ci.Valid) (hco : co.Valid) (hco' : co'.Valid)
    (hmul : ∀ m : ℚ, room.multiplier = some m → 0 ≤ m)
    (hrate : ∀ s ∈ seasons, ∀ r : ℚ, s.rate = some r → 0 ≤ r)
    (h1 : ci.lexLt co) (h2 : co.lexLe co')
    (q q' : ℚ)
    (hq : compute_price room seasons ci co = .ok q)
    (hq' : compute_price room seasons ci co' = .ok q') :
    q ≤ q' := by
  obtain ⟨t, ht, rfl⟩ : ∃ t, compute_price_raw room seasons ci co = .ok t ∧ q = round2 t := by
    unfold compute_price at hq
    cases hcr : compute_price_raw room seasons ci co with
    | error e =>
      rw [hcr] at hq
      cases hq
    | ok t =>
      rw [hcr] at hq
      injection hq with hq
      exact ⟨t, rfl, hq.symm⟩
  obtain ⟨t', ht', rfl⟩ : ∃ t', compute_price_raw room seasons ci co' = .ok t' ∧ q' = round2 t' := by
    unfold compute_price at hq'
    cases hcr : compute_price_raw room seasons ci co' with
    | error e =>
      rw [hcr] at hq'
      cases hq'
    | ok t' =>
      rw [hcr] at hq'
      injection hq' with hq'
      exact ⟨t', rfl, hq'.symm⟩
  have hsplit : daterange ci co' = daterange ci co ++ daterange co co' :=
    daterange_append hci hco hco' (Or.inl h1) h2
  unfold compute_price_raw at ht ht'
  rw [hsplit, priceLoop_append, ht] at ht'
  have ht'' : priceLoop room seasons (daterange co co') t = .ok t' := ht'
  exact round2_mono (priceLoop_ge hmul hrate ht'')

/-- C7 witness: one extra night of an all-year rate-10 season does not
decrease the rounded total. -/
theorem C7_monotone_witness :
    round2 (0 + 10 * 1) ≤ round2 (0 + 10 * 1 + 10 * 1) :=
  C7_monotone ⟨"r1", some 2, some 1⟩ [⟨"AllYear", 1, 1, 12, 31, some 10⟩]
    ⟨2023, 1, 1⟩ ⟨2023, 1, 2⟩ ⟨2023, 1, 3⟩ (by decide) (by decide) (by decide)
    (by
      rintro m hmu
      injection hmu with h
      subst h
      norm_num)
    (by
      rintro s hs r hrr
      simp only [List.mem_singleton] at hs
      subst hs
      injection hrr with h
      subst h
      norm_num)
    (by decide) (by decide)
    (round2 (0 + 10 * 1)) (round2 (0 + 10 * 1 + 10 * 1)) rfl rfl

/-- C6: concrete scenario. With the seeded seasons (Academic Year
10/1 - 6/30 at 45.0, Summer 7/1 - 9/30 at 35.0) and the multiplier-1.4
room, the three-night stay Nov 1 - Nov 4 of any (positive) year prices to
exactly 189.00. -/
theorem C6_concrete_scenario (y : ℕ) (hy : 1 ≤ y) :
    compute_price ⟨"Entire Apartment", some 4, some (7/5)⟩
      [⟨"Academic Year", 10, 1, 6, 30, some 45⟩, ⟨"Summer", 7, 1, 9, 30, some 35⟩]
      ⟨y, 11, 1⟩ ⟨y, 11, 4⟩ = .ok 189 := by
  have hv1 : Date.Valid ⟨y, 11, 1⟩ := by simp [Date.Valid, daysInMonth, hy]
  have hv2 : Date.Valid ⟨y, 11, 2⟩ := by simp [Date.Valid, daysInMonth, hy]
  have hv3 : Date.Valid ⟨y, 11, 3⟩ := by simp [Date.Valid, daysInMonth, hy]
  have hv4 : Date.Valid ⟨y, 11, 4⟩ := by simp [Date.Valid, daysInMonth, hy]
  have hn1 : nextDate ⟨y, 11, 1⟩ = ⟨y, 11, 2⟩ := by simp [nextDate, daysInMonth]
  have hn2 : nextDate ⟨y, 11, 2⟩ = ⟨y, 11, 3⟩ := by simp [nextDate, daysInMonth]
  have hn3 : nextDate ⟨y, 11, 3⟩ = ⟨y, 11, 4⟩ := by simp [nextDate, daysInMonth]
  have hd : daterange ⟨y, 11, 1⟩ ⟨y, 11, 4⟩ = [⟨y, 11, 1⟩, ⟨y, 11, 2⟩, ⟨y, 11, 3⟩] := by
    rw [daterange_eq hv1 hv4, if_pos (by simp [Date.lexLt]), hn1,
      daterange_eq hv2 hv4, if_pos (by simp [Date.lexLt]), hn2,
      daterange_eq hv3 hv4, if_pos (by simp [Date.lexLt]), hn3,
      daterange_nil hv4 hv4 (lexLt_irrefl _)]
  have hmk1 : mkDate y 10 1 = .ok ⟨y, 10, 1⟩ := by
    simp [mkDate, Date.Valid, daysInMonth, hy]
  have hmk2 : mkDate y 6 30 = .ok ⟨y, 6, 30⟩ := by
    simp [mkDate, Date.Valid, daysInMonth, hy]
  have hmatch : ∀ k : ℕ, 1 ≤ k →
      seasonMatch ⟨y, 11, k⟩ ⟨"Academic Year", 10, 1, 6, 30, some 45⟩ = .ok true := by
    intro k hk
    unfold seasonMatch
    simp only [hmk1, hmk2]
    rw [if_pos (by simp [Date.lexLt])]
    rw [if_pos (show Date.lexLe ⟨y, 10, 1⟩ ⟨y, 11, k⟩ ∨ Date.lexLe ⟨y, 11, k⟩ ⟨y, 6, 30⟩
      from Or.inl (Or.inl (by simp [Date.lexLt])))]
  have hs1 : season_for_day ⟨y, 11, 1⟩
      [⟨"Academic Year", 10, 1, 6, 30, some 45⟩, ⟨"Summer", 7, 1, 9, 30, some 35⟩]
      = .ok (some ⟨"Academic Year", 10, 1, 6, 30, some 45⟩) := by
    simp [season_for_day, hmatch 1 (by norm_num)]
  have hs2 : season_for_day ⟨y, 11, 2⟩
      [⟨"Academic Year", 10, 1, 6, 30, some 45⟩, ⟨"Summer", 7, 1, 9, 30, some 35⟩]
      = .ok (some ⟨"Academic Year", 10, 1, 6, 30, some 45⟩) := by
    simp [season_for_day, hmatch 2 (by norm_num)]
  have hs3 : season_for_day ⟨y, 11, 3⟩
      [⟨"Academic Year", 10, 1, 6, 30, some 45⟩, ⟨"Summer", 7, 1, 9, 30, some 35⟩]
      = .ok (some ⟨"Academic Year", 10, 1, 6, 30, some 45⟩) := by
    simp [season_for_day, hmatch 3 (by norm_num)]
  have hb1 : day_base ⟨y, 11, 1⟩
      [⟨"Academic Year", 10, 1, 6, 30, some 45⟩, ⟨"Summer", 7, 1, 9, 30, some 35⟩]
      = .ok 45 := by
    unfold day_base
    rw [hs1]
    rfl
  have hb2 : day_base ⟨y, 11, 2⟩
      [⟨"Academic Year", 10, 1, 6, 30, some 45⟩, ⟨"Summer", 7, 1, 9, 30, some 35⟩]
      = .ok 45 := by
    unfold day_base
    rw [hs2]
    rfl
  have hb3 : day_base ⟨y, 11, 3⟩
      [⟨"Academic Year", 10, 1, 6, 30, some 45⟩, ⟨"Summer", 7, 1, 9, 30, some 35⟩]
      = .ok 45 := by
    unfold day_base
    rw [hs3]
    rfl
  unfold compute_price compute_price_raw
  rw [hd]
  simp only [priceLoop, hb1, hb2, hb3]
  have harg : (0 + 45 * ((⟨"Entire Apartment", some 4, some (7/5)⟩ : Room).multiplier.getD 1)
      + 45 * ((⟨"Entire Apartment", some 4, some (7/5)⟩ : Room).multiplier.getD 1)
      + 45 * ((⟨"Entire Apartment", some 4, some (7/5)⟩ : Room).multiplier.getD 1) : ℚ)
      = 189 := by
    norm_num
  rw [harg]
  rw [round2_eq_self ⟨18900, by push_cast; norm_num⟩]

/-- C6 witness: the scenario evaluated in year 2023. -/
theorem C6_concrete_scenario_witness :
    compute_price ⟨"Entire Apartment", some 4, some (7/5)⟩
      [⟨"Academic Year", 10, 1, 6, 30, some 45⟩, ⟨"Summer", 7, 1, 9, 30, some 35⟩]
      ⟨2023, 11, 1⟩ ⟨2023, 11, 4⟩ = .ok 189 :=
  C6_concrete_scenario 2023 (by norm_num)

/-- C10: for the same request payload against the same rooms and seasons,
the booking endpoint performs exactly the validation of the quote endpoint
(room lookup, date parsing, `check_out > check_in`, guests in
`[1, capacity]`) and computes the identical total price: mapping both
results to their `total_price` (errors untouched) gives equal values, so
booking never errors or prices differently from quoting. -/
theorem C10_quote_book_equiv (rooms : List Room) (seasons : List Season) (p : BookingRequest) :
    Except.map (fun b => b.total_price) (create_booking rooms seasons p)
      = Except.map (fun q => q.total_price) (get_quote rooms seasons p.toQuoteRequest) := by
  unfold create_booking get_quote BookingRequest.toQuoteRequest
  cases hfind : rooms.find? (fun r => r.id == p.room_id) with
  | none => rfl
  | some room =>
    cases hci : parse_date p.check_in with
    | error e => rfl
    | ok ci =>
      cases hco : parse_date p.check_out with
      | error e => rfl
      | ok co =>
        dsimp only
        by_cases hord : co.lexLe ci
        · rw [if_pos hord, if_pos hord]
          rfl
        · rw [if_neg hord, if_neg hord]
          by_cases hg : p.guests < 1 ∨ (room.capacity.getD 1) < p.guests
          · rw [if_pos hg, if_pos hg]
            rfl
          · rw [if_neg hg, if_neg hg]
            cases hcp : compute_price room seasons ci co with
            | error e => rfl
            | ok price => rfl
